import Mathlib

/-!
Verification of the Gavel governance control plane against its
natural-language specification.

The development shallowly embeds the parts of the repository the claims
touch:

* `governance_db/migrations/001_audit_spine.sql` — the append-only,
  hash-chained ledger: the `audit_events` table, the `BEFORE INSERT`
  trigger `audit_spine_hash_chain`, the unique index on
  `previous_event_hash`, the `UPDATE`/`DELETE` denial trigger
  `audit_spine_deny_mutation`, and the scan `audit_spine_verify_chain`.
* `ui/src/app/api/approve/route.ts` — the approval proxy route and the
  escalation state computation of `GET /api/escalations`.
* `integrations/openclaw-plugin/src/plugin/config.ts` and
  `tool-interceptor.ts` — `loadConfig` and the `before_tool_call` hook.
* `ui/src/lib/db.ts` — `getIntentsWithPolicyEvals`, the intent/policy
  pairing query of the dashboard.

SHA-256 itself comes from pgcrypto (`encode(digest(s, 'sha256'), 'hex')`),
an external primitive of the store; it is represented throughout by an
explicit function parameter `sha : String → String`.  Timestamps are
modelled as natural numbers; `createdAtText` stands for the store's
`::text` rendering of `created_at`.  UUIDs are modelled as naturals with
the store's ordering.
-/

set_option maxRecDepth 40000

namespace Gavel

/-- A row of `audit_events` (001_audit_spine.sql, lines 14-23).
`intent_payload` holds the canonical JSON text (`intent_payload::text`),
which is the only form the hash and the queries consume. -/
structure AuditEvent where
  id : Nat
  created_at : Nat
  actor_id : String
  action_type : String
  intent_payload : String
  policy_version : String
  event_hash : String
  previous_event_hash : String
deriving DecidableEq, Repr

/-- The sort key `(created_at, id)` used by the tip query and the verify
scan. -/
def AuditEvent.key (e : AuditEvent) : Nat × Nat :=
  (e.created_at, e.id)

/-- Strict lexicographic order on `(created_at, id)` keys. -/
def lexLt (a b : Nat × Nat) : Prop :=
  a.1 < b.1 ∨ (a.1 = b.1 ∧ a.2 < b.2)

instance instDecidableLexLt (a b : Nat × Nat) : Decidable (lexLt a b) := by
  unfold lexLt
  exact inferInstance

/-- The tip query `SELECT event_hash FROM audit_events ORDER BY created_at DESC, id DESC
LIMIT 1` (001_audit_spine.sql, lines 48-51): the row with the greatest
`(created_at, id)` key. -/
def chainTip : List AuditEvent → Option AuditEvent
  | [] => none
  | e :: rest =>
    match chainTip rest with
    | none => some e
    | some t => if lexLt t.key e.key then some e else some t

/-- The predecessor hash a fresh insert links to: the tip's `event_hash`,
or the sentinel `GENESIS` for an empty ledger (lines 54-58). -/
def tipPrev (st : List AuditEvent) : String :=
  match chainTip st with
  | none => "GENESIS"
  | some t => t.event_hash

/-- Stand-in for the store's textual rendering of `created_at`
(`NEW.created_at::text`). -/
def createdAtText (t : Nat) : String :=
  toString t

/-- The canonical hash input (001_audit_spine.sql, lines 63-68): the six
fields joined by the single-character pipe. -/
def hashInput (prev actor action payload version created : String) : String :=
  prev ++ "|" ++ actor ++ "|" ++ action ++ "|" ++ payload ++ "|" ++ version ++ "|" ++ created

/-- The recomputation `audit_spine_verify_chain` performs for one row
(lines 125-136): the same formula over the row's stored fields. -/
def recomputeHash (sha : String → String) (e : AuditEvent) : String :=
  sha (hashInput e.previous_event_hash e.actor_id e.action_type
        e.intent_payload e.policy_version (createdAtText e.created_at))

/-- A caller-supplied insert: the columns an `INSERT INTO audit_events`
provides (the trigger fills the rest). -/
structure AppendReq where
  id : Nat
  created_at : Nat
  actor_id : String
  action_type : String
  intent_payload : String
  policy_version : String
deriving DecidableEq, Repr

def AppendReq.key (r : AppendReq) : Nat × Nat :=
  (r.created_at, r.id)

/-- The `BEFORE INSERT` trigger `audit_spine_hash_chain`
(001_audit_spine.sql, lines 39-76): reads the tip, sets
`previous_event_hash`, and computes `event_hash` over all material
fields. -/
def audit_spine_hash_chain (sha : String → String) (st : List AuditEvent)
    (r : AppendReq) : AuditEvent :=
  let prev := tipPrev st
  { id := r.id
    created_at := r.created_at
    actor_id := r.actor_id
    action_type := r.action_type
    intent_payload := r.intent_payload
    policy_version := r.policy_version
    previous_event_hash := prev
    event_hash := sha (hashInput prev r.actor_id r.action_type
        r.intent_payload r.policy_version (createdAtText r.created_at)) }

/-- One `INSERT` into `audit_events`: the trigger fills the row, then the
primary key and the unique index `idx_audit_events_prev_hash` (line 31)
admit or reject it.  `none` models the statement failing. -/
def insertAuditEvent (sha : String → String) (st : List AuditEvent)
    (r : AppendReq) : Option (List AuditEvent) :=
  let e := audit_spine_hash_chain sha st r
  if st.any (fun x => x.id == e.id) then none
  else if st.any (fun x => x.previous_event_hash == e.previous_event_hash) then none
  else some (st ++ [e])

/-- A sequence of inserts run left to right; the exclusive table lock
(line 45) serializes them, so a list of requests is the general schedule.
`none` when any insert fails. -/
def appendAll (sha : String → String) :
    List AuditEvent → List AppendReq → Option (List AuditEvent)
  | st, [] => some st
  | st, r :: rs =>
    match insertAuditEvent sha st r with
    | none => none
    | some st1 => appendAll sha st1 rs

/-- All appends on an initially empty ledger. -/
def runAppends (sha : String → String) (reqs : List AppendReq) :
    Option (List AuditEvent) :=
  appendAll sha [] reqs

/-- Insertion step of the `ORDER BY created_at ASC, id ASC` sort. -/
def insertByKey (e : AuditEvent) : List AuditEvent → List AuditEvent
  | [] => [e]
  | x :: xs => if lexLt e.key x.key then e :: x :: xs else x :: insertByKey e xs

/-- The ledger in ascending `(created_at, id)` order, as the verify scan
reads it (001_audit_spine.sql, line 121). -/
def sortByKey (l : List AuditEvent) : List AuditEvent :=
  l.foldr insertByKey []

/-- The row type `audit_spine_verify_chain` returns (line 114). -/
structure VerifyResult where
  total_events : Nat
  chain_valid : Bool
  break_at : Option Nat
deriving DecidableEq, Repr

/-- The verify loop (lines 120-142): bump the counter, recompute the
hash, stop at the first mismatch. -/
def verifyWalk (sha : String → String) : List AuditEvent → Nat → VerifyResult
  | [], counter => ⟨counter, true, none⟩
  | e :: rest, counter =>
    if recomputeHash sha e ≠ e.event_hash then
      ⟨counter + 1, false, some e.id⟩
    else
      verifyWalk sha rest (counter + 1)

/-- The function `audit_spine_verify_chain()` (001_audit_spine.sql, lines 113-147):
walk the ledger in ascending `(created_at, id)` order from a zero
counter. -/
def audit_spine_verify_chain (sha : String → String) (st : List AuditEvent) :
    VerifyResult :=
  verifyWalk sha (sortByKey st) 0

/-- The error text `audit_spine_deny_mutation` raises
(001_audit_spine.sql, lines 87-96). -/
def audit_spine_deny_mutation (op : String) : String :=
  "CONSTITUTIONAL VIOLATION §I.1: Audit Spine is append-only. " ++ op ++
    " operations are prohibited on audit_events."

/-- An `UPDATE` against `audit_events`: the row trigger
`trg_audit_spine_no_update` (lines 98-101) fires on every targeted row
and raises, aborting the statement; a statement touching no row is a
no-op. -/
def updateAuditEvents (st : List AuditEvent) (hits : AuditEvent → Bool)
    (f : AuditEvent → AuditEvent) : Except String (List AuditEvent) :=
  if st.any hits then .error (audit_spine_deny_mutation "UPDATE")
  else .ok (st.map fun e => if hits e then f e else e)

/-- A `DELETE` against `audit_events`: `trg_audit_spine_no_delete`
(lines 103-106) fires on every targeted row and raises. -/
def deleteAuditEvents (st : List AuditEvent) (hits : AuditEvent → Bool) :
    Except String (List AuditEvent) :=
  if st.any hits then .error (audit_spine_deny_mutation "DELETE")
  else .ok (st.filter fun e => !hits e)

/-- The chain-linkage property of §8 properties 1: the first row links to
`p` (at the top level, the sentinel `GENESIS`) and every later row links
to its predecessor's `event_hash`. -/
def chainLinkedB : String → List AuditEvent → Bool
  | _, [] => true
  | p, e :: rest => (e.previous_event_hash == p) && chainLinkedB e.event_hash rest

/-- The hash the next append would link to if `l` were the ledger suffix
after a prefix closing with hash `p`: `p` for an empty suffix, else the
last row's `event_hash`. -/
def lastHash (p : String) : List AuditEvent → String
  | [] => p
  | e :: rest => lastHash e.event_hash rest

/-- An injective stand-in hash used to evaluate the model on concrete
inputs. -/
def toySha (s : String) : String :=
  "sha256:" ++ s

/-! ### Escalation view — `GET /api/escalations` (ui route.ts) -/

/-- Elapsed seconds between `now` and the ESCALATED event's `created_at`,
both in epoch milliseconds (`elapsedMs = now - escalatedAt;
elapsedSeconds = elapsedMs / 1000`). -/
def elapsedSecondsOf (nowMs escalatedAtMs : Int) : ℚ :=
  ((nowMs - escalatedAtMs : Int) : ℚ) / 1000

/-- The state field of one escalation row (route.ts, lines 89-98 of the
escalations handler): resolution wins, then the strict 3600 s and 300 s
thresholds. -/
def escalationState (resolved : Bool) (elapsedSeconds : ℚ) : String :=
  if resolved then "RESOLVED"
  else if elapsedSeconds > 3600 then "AUTO_DENIED_TIMEOUT"
  else if elapsedSeconds > 300 then "HUMAN_REQUIRED"
  else "PENDING_REVIEW"

/-! ### Approval proxy — `POST /api/approve` (ui route.ts) -/

/-- Status code of `POST /api/approve` as a function of the environment
and of the status the gateway would answer with: `HUMAN_API_KEY ??
""` falsy short-circuits to 500 before any proxying; otherwise the
gateway's status is passed through. -/
def approveRoutePOST (env : String → Option String) (gatewayStatus : Nat) : Nat :=
  let humanApiKey := (env "HUMAN_API_KEY").getD ""
  if humanApiKey = "" then 500 else gatewayStatus

/-! ### OpenClaw plugin — `loadConfig` and the `before_tool_call` hook -/

structure GovernanceConfig where
  gatewayUrl : String
  actorId : String
  apiKey : String
  failOpen : Bool
  timeoutMs : Nat
deriving DecidableEq, Repr

/-- ASCII-lowercasing as a structural recursion (stand-in for
`.toLowerCase()`). -/
def toLowerStr (s : String) : String :=
  String.mk (s.data.map Char.toLower)

/-- The regex `.replace(/\/+$/, "")`: drop every trailing slash. -/
def stripTrailingSlashes (s : String) : String :=
  String.mk (s.data.reverse.dropWhile (fun c => c = '/')).reverse

/-- Function `loadConfig` (config.ts, lines 16-26) over an abstract environment. -/
def loadConfig (env : String → Option String) : GovernanceConfig :=
  let failOpenRaw := toLowerStr ((env "GOVERNANCE_FAIL_OPEN").getD "false")
  { gatewayUrl := stripTrailingSlashes
      ((env "GOVERNANCE_GATEWAY_URL").getD "http://localhost:8000")
    actorId := (env "GOVERNANCE_ACTOR_ID").getD "agent:openclaw"
    apiKey := (env "HUMAN_API_KEY").getD ""
    failOpen := failOpenRaw == "true" || failOpenRaw == "1"
    timeoutMs := 5000 }

structure Violation where
  rule : String
  description : String
deriving DecidableEq, Repr

/-- The gateway's `/propose` response body (types.ts). -/
structure ProposalResponse where
  decision : String
  risk_score : ℚ
  intent_event_id : String
  policy_event_id : String
  violations : List Violation
deriving DecidableEq, Repr

/-- What `fetch` hands back inside `callGateway`: a status plus parsed
body (and the raw text used in the unexpected-status error), or a thrown
network/timeout error. -/
inductive FetchResult where
  | ok (status : Nat) (data : ProposalResponse) (rawText : String)
  | netError (msg : String)
deriving Repr

/-- Function `callGateway` (tool-interceptor.ts, lines 111-145): statuses 200, 403
and 202 carry a decision; anything else, and any fetch failure, becomes a
thrown error. -/
def callGateway (fetched : FetchResult) : Except String ProposalResponse :=
  match fetched with
  | .netError msg => .error msg
  | .ok status data rawText =>
    if status == 200 || status == 403 || status == 202 then .ok data
    else .error ("Gateway returned " ++ toString status ++ ": " ++ rawText.take 100)

/-- The hook's result object: `{}` allows; `block: true` with a
`blockReason` denies. -/
structure BeforeToolCallResult where
  block : Option Bool := none
  blockReason : Option String := none
deriving DecidableEq, Repr

def joinSep (sep : String) : List String → String
  | [] => ""
  | [s] => s
  | s :: rest => s ++ sep ++ joinSep sep rest

/-- The string `violations.map(...).join("; ")` of the DENIED branch. -/
def formatViolations (vs : List Violation) : String :=
  joinSep "; " (vs.map fun v => "[" ++ v.rule ++ "] " ++ v.description)

/-- The decision switch of the hook (tool-interceptor.ts, lines 175-204):
APPROVED yields the empty result, everything else blocks with a
reason. -/
def decisionDispatch (response : ProposalResponse) : BeforeToolCallResult :=
  if response.decision == "APPROVED" then {}
  else if response.decision == "DENIED" then
    { block := some true
      blockReason := some ("DENIED: " ++ formatViolations response.violations) }
  else if response.decision == "ESCALATED" then
    { block := some true
      blockReason := some ("ESCALATED: Requires human approval. Risk score: " ++
        toString response.risk_score ++
        ". Approve at dashboard or via POST /approve with intent_event_id: " ++
        response.intent_event_id ++ ", policy_event_id: " ++
        response.policy_event_id) }
  else
    { block := some true
      blockReason := some ("Unknown governance decision: " ++ response.decision ++
        ". Failing closed.") }

/-- One run of the hook `createToolCallHook` returns
(tool-interceptor.ts, lines 154-205): a failed gateway call blocks unless
`failOpen`; a decision goes through the switch. -/
def toolCallHookResult (config : GovernanceConfig) (fetched : FetchResult) :
    BeforeToolCallResult :=
  match callGateway fetched with
  | .error errMsg =>
    if config.failOpen then {}
    else
      { block := some true
        blockReason := some ("Governance gateway unavailable (" ++ errMsg ++
          "). Failing closed.") }
  | .ok response => decisionDispatch response

/-! ### Dashboard pairing — `getIntentsWithPolicyEvals` (ui lib/db.ts) -/

/-- Structural character-list prefix test (stand-in for the pattern
anchor of `LIKE`). -/
def isPrefixOfStr : List Char → List Char → Bool
  | [], _ => true
  | _ :: _, [] => false
  | c :: cs, d :: ds => c == d && isPrefixOfStr cs ds

/-- The filter `action_type LIKE 'POLICY_EVAL:%'`. -/
def isPolicyEval (e : AuditEvent) : Bool :=
  isPrefixOfStr "POLICY_EVAL:".data e.action_type.data

/-- The lateral subquery's WHERE clause (db.ts, lines 310-313): a policy
evaluation for the same actor whose `created_at` falls within ten seconds
after the intent's.  `created_at` is read in whole seconds here, so the
`interval '10 seconds'` bound is `+ 10`. -/
def policyEvalMatch (i pe : AuditEvent) : Bool :=
  isPolicyEval pe && pe.actor_id == i.actor_id &&
    decide (i.created_at ≤ pe.created_at) &&
    decide (pe.created_at ≤ i.created_at + 10)

/-- The clause `ORDER BY pe.created_at ASC LIMIT 1`: the first row carrying the
least `created_at` (ties resolved to the earlier row of the scan, the
order being unspecified in SQL). -/
def earliestByCreated : List AuditEvent → Option AuditEvent
  | [] => none
  | e :: rest =>
    match earliestByCreated rest with
    | none => some e
    | some b => if b.created_at < e.created_at then some b else some e

/-- The policy evaluation `getIntentsWithPolicyEvals` pairs with the
intent `i` (db.ts, lines 307-316). -/
def pairedPolicyEval (evs : List AuditEvent) (i : AuditEvent) : Option AuditEvent :=
  earliestByCreated (evs.filter (policyEvalMatch i))

/-- Relation `lexLt` lifted to rows. -/
def keyLt (a b : AuditEvent) : Prop :=
  lexLt a.key b.key

instance instDecidableKeyLt (a b : AuditEvent) : Decidable (keyLt a b) := by
  unfold keyLt
  exact inferInstance

/-- The tip-or-default hash. -/
def tipHashOr (p : String) : Option AuditEvent → String
  | none => p
  | some t => t.event_hash

/-! ### Concrete fixtures -/

def c1req : AppendReq :=
  ⟨1, 10, "agent:coder", "INBOUND_INTENT", "ls -la", "1.0.0"⟩

def c1ledger : List AuditEvent :=
  (insertAuditEvent toySha [] c1req).getD []

def c2reqs : List AppendReq :=
  [⟨1, 10, "system:bootstrap", "SPINE_INITIALIZED", "genesis", "1.0.0"⟩,
   ⟨2, 20, "agent:architect", "SCHEMA_CREATED", "audit_events", "1.0.0"⟩,
   ⟨3, 30, "agent:reviewer", "REVIEW_APPROVED", "001_audit_spine.sql", "1.0.0"⟩]

def c2ledger : List AuditEvent :=
  (runAppends toySha c2reqs).getD []

/-- Two appends tying on `created_at` (the clock did not advance) whose
random ids arrive in descending order: the second insert links to the
first, yet sorts before it. -/
def c2tiereqs : List AppendReq :=
  [⟨5, 10, "agent:a", "INBOUND_INTENT", "x", "1.0.0"⟩,
   ⟨3, 10, "agent:a", "INBOUND_INTENT", "y", "1.0.0"⟩]

def c2tieledger : List AuditEvent :=
  (runAppends toySha c2tiereqs).getD []

/-- A row whose stored hash recomputes correctly from its own fields. -/
def selfConsistentRow (id created_at : Nat) (actor action payload version prev : String) :
    AuditEvent :=
  { id := id
    created_at := created_at
    actor_id := actor
    action_type := action
    intent_payload := payload
    policy_version := version
    previous_event_hash := prev
    event_hash := toySha (hashInput prev actor action payload version
      (createdAtText created_at)) }

/-- Two rows, each internally hash-consistent, whose second does not link
to the first: the chain property fails while every recomputation
matches. -/
def c3state : List AuditEvent :=
  [selfConsistentRow 1 10 "agent:a" "INBOUND_INTENT" "x" "1.0.0" "GENESIS",
   selfConsistentRow 2 20 "agent:a" "INBOUND_INTENT" "y" "1.0.0" "BOGUS"]

/-- A tampered row: its stored hash no longer recomputes. -/
def c4bad : AuditEvent :=
  { id := 1
    created_at := 10
    actor_id := "agent:a"
    action_type := "INBOUND_INTENT"
    intent_payload := "x"
    policy_version := "1.0.0"
    previous_event_hash := "GENESIS"
    event_hash := "tampered" }

def c4good : AuditEvent :=
  selfConsistentRow 2 20 "agent:a" "INBOUND_INTENT" "y" "1.0.0" "p1"

/-- Two rows whose first is tampered. -/
def c4state : List AuditEvent :=
  [c4bad, c4good]

def c5state : List AuditEvent :=
  [selfConsistentRow 1 10 "system:bootstrap" "SPINE_INITIALIZED" "genesis" "1.0.0" "GENESIS"]

def c5req : AppendReq :=
  ⟨2, 20, "agent:coder", "INBOUND_INTENT", "ls", "1.0.0"⟩

/-- An environment that switches the plugin to fail-open. -/
def envFailOpen : String → Option String :=
  fun k => if k == "GOVERNANCE_FAIL_OPEN" then some "true" else none

/-- A closed fail-closed configuration. -/
def cfgClosed : GovernanceConfig :=
  ⟨"http://localhost:8000", "agent:openclaw", "k", false, 5000⟩

def dummyResponse : ProposalResponse :=
  ⟨"APPROVED", 0, "i", "p", []⟩

def envNoKey : String → Option String := fun _ => none

def envEmptyKey : String → Option String :=
  fun k => if k == "HUMAN_API_KEY" then some "" else none

def deniedResponse : ProposalResponse :=
  ⟨"DENIED", 1, "i1", "p1", [⟨"NO_SUDO", "sudo is prohibited"⟩]⟩

/-- All events of the list carry pairwise distinct `created_at`
stamps. -/
def distinctTimes : List AuditEvent → Bool
  | [] => true
  | e :: rest =>
    rest.all (fun x => e.created_at != x.created_at) && distinctTimes rest

/-- Interleaved fixtures: intent, its evaluation, a second intent, its
evaluation — all one actor inside a ten-second window. -/
def c10i1 : AuditEvent :=
  ⟨1, 0, "agent:a", "INBOUND_INTENT", "cmd1", "1.0.0", "h1", "GENESIS"⟩

def c10p1 : AuditEvent :=
  ⟨2, 1, "agent:a", "POLICY_EVAL:APPROVED", "d1", "1.0.0", "h2", "q1"⟩

def c10i2 : AuditEvent :=
  ⟨3, 2, "agent:a", "INBOUND_INTENT", "cmd2", "1.0.0", "h3", "q2"⟩

def c10p2 : AuditEvent :=
  ⟨4, 3, "agent:a", "POLICY_EVAL:APPROVED", "d2", "1.0.0", "h4", "q3"⟩

def c10evs : List AuditEvent :=
  [c10i1, c10p1, c10i2, c10p2]

/-- Batched fixtures: both intents are appended before the single
evaluation, which then falls in both windows. -/
def c10wi1 : AuditEvent :=
  ⟨1, 0, "agent:b", "INBOUND_INTENT", "cmd1", "1.0.0", "h1", "GENESIS"⟩

def c10wi2 : AuditEvent :=
  ⟨2, 2, "agent:b", "INBOUND_INTENT", "cmd2", "1.0.0", "h2", "q1"⟩

def c10wp : AuditEvent :=
  ⟨3, 3, "agent:b", "POLICY_EVAL:ESCALATED", "d1", "1.0.0", "h3", "q2"⟩

def c10wevs : List AuditEvent :=
  [c10wi1, c10wi2, c10wp]

/-! ### Order and tip lemmas -/

lemma lexLt_asymm {a b : Nat × Nat} (h : lexLt a b) : ¬ lexLt b a := by
  unfold lexLt at *
  omega

lemma chainTip_mem : ∀ {l : List AuditEvent} {t : AuditEvent},
    chainTip l = some t → t ∈ l := by
  intro l
  induction l with
  | nil => intro t h; simp [chainTip] at h
  | cons e rest ih =>
    intro t h
    unfold chainTip at h
    cases hx : chainTip rest with
    | none =>
      rw [hx] at h
      simp only [Option.some.injEq] at h
      simp [h]
    | some b =>
      rw [hx] at h
      by_cases hlt : lexLt b.key e.key
      · simp only [hlt, if_true, Option.some.injEq] at h
        simp [h]
      · simp only [hlt, if_false, Option.some.injEq] at h
        exact List.mem_cons_of_mem _ (h ▸ ih hx)

lemma tipPrev_eq_tipHashOr (st : List AuditEvent) :
    tipPrev st = tipHashOr "GENESIS" (chainTip st) := by
  cases h : chainTip st <;> simp [tipPrev, tipHashOr, h]

lemma tipHashOr_eq_lastHash :
    ∀ (l : List AuditEvent), l.Pairwise keyLt →
      ∀ p, tipHashOr p (chainTip l) = lastHash p l := by
  intro l
  induction l with
  | nil => intro _ p; rfl
  | cons e rest ih =>
    intro hp p
    rcases List.pairwise_cons.mp hp with ⟨hhead, htail⟩
    show tipHashOr p (chainTip (e :: rest)) = lastHash e.event_hash rest
    unfold chainTip
    cases hx : chainTip rest with
    | none =>
      have := ih htail e.event_hash
      rw [hx] at this
      simpa [tipHashOr] using this.symm ▸ rfl
    | some b =>
      have hbmem : b ∈ rest := chainTip_mem hx
      have hlt : ¬ lexLt b.key e.key := lexLt_asymm (hhead b hbmem)
      have := ih htail e.event_hash
      rw [hx] at this
      simp only [hlt, if_false, tipHashOr]
      simpa [tipHashOr] using this

lemma tipPrev_eq_lastHash (st : List AuditEvent) (h : st.Pairwise keyLt) :
    tipPrev st = lastHash "GENESIS" st := by
  rw [tipPrev_eq_tipHashOr, tipHashOr_eq_lastHash st h]

/-! ### Chain-linkage lemmas -/

lemma chainLinkedB_concat :
    ∀ (l : List AuditEvent) (p : String) (e : AuditEvent),
      chainLinkedB p l = true → e.previous_event_hash = lastHash p l →
      chainLinkedB p (l ++ [e]) = true := by
  intro l
  induction l with
  | nil =>
    intro p e _ hprev
    simp [chainLinkedB, lastHash] at hprev ⊢
    exact hprev
  | cons x xs ih =>
    intro p e hlink hprev
    simp only [chainLinkedB, Bool.and_eq_true] at hlink
    simp only [List.cons_append, chainLinkedB, Bool.and_eq_true]
    exact ⟨hlink.1, ih x.event_hash e hlink.2 hprev⟩

/-! ### Sorting lemmas -/

lemma mem_insertByKey {x e : AuditEvent} :
    ∀ {l : List AuditEvent}, x ∈ insertByKey e l ↔ x = e ∨ x ∈ l := by
  intro l
  induction l with
  | nil => simp [insertByKey]
  | cons y ys ih =>
    by_cases h : lexLt e.key y.key
    · simp [insertByKey, h]
    · simp [insertByKey, h, ih]
      tauto

lemma mem_sortByKey {x : AuditEvent} :
    ∀ {l : List AuditEvent}, x ∈ sortByKey l ↔ x ∈ l := by
  intro l
  induction l with
  | nil => simp [sortByKey]
  | cons y ys ih =>
    show x ∈ insertByKey y (sortByKey ys) ↔ _
    rw [mem_insertByKey]
    simp [ih]

lemma length_insertByKey (e : AuditEvent) :
    ∀ (l : List AuditEvent), (insertByKey e l).length = l.length + 1 := by
  intro l
  induction l with
  | nil => rfl
  | cons y ys ih =>
    by_cases h : lexLt e.key y.key
    · simp [insertByKey, h]
    · simp [insertByKey, h, ih]

lemma length_sortByKey :
    ∀ (l : List AuditEvent), (sortByKey l).length = l.length := by
  intro l
  induction l with
  | nil => rfl
  | cons y ys ih =>
    show (insertByKey y (sortByKey ys)).length = ys.length + 1
    rw [length_insertByKey, ih]

lemma insertByKey_front {e : AuditEvent} {l : List AuditEvent}
    (h : ∀ y ∈ l, keyLt e y) : insertByKey e l = e :: l := by
  cases l with
  | nil => rfl
  | cons y ys =>
    have : lexLt e.key y.key := h y (List.mem_cons_self y ys)
    simp [insertByKey, this]

lemma sortByKey_of_sorted :
    ∀ {l : List AuditEvent}, l.Pairwise keyLt → sortByKey l = l := by
  intro l
  induction l with
  | nil => intro _; rfl
  | cons y ys ih =>
    intro hp
    rcases List.pairwise_cons.mp hp with ⟨hhead, htail⟩
    show insertByKey y (sortByKey ys) = y :: ys
    rw [ih htail, insertByKey_front hhead]

/-! ### Verify-walk lemmas -/

lemma verifyWalk_valid_iff (sha : String → String) :
    ∀ (l : List AuditEvent) (c : Nat),
      (verifyWalk sha l c).chain_valid = true ↔
        ∀ e ∈ l, recomputeHash sha e = e.event_hash := by
  intro l
  induction l with
  | nil => intro c; simp [verifyWalk]
  | cons e rest ih =>
    intro c
    by_cases h : recomputeHash sha e = e.event_hash
    · simp [verifyWalk, h, ih (c + 1)]
    · simp [verifyWalk, h]

lemma verifyWalk_all_good (sha : String → String) :
    ∀ (l : List AuditEvent) (c : Nat),
      (∀ e ∈ l, recomputeHash sha e = e.event_hash) →
      verifyWalk sha l c = ⟨c + l.length, true, none⟩ := by
  intro l
  induction l with
  | nil => intro c _; simp [verifyWalk]
  | cons e rest ih =>
    intro c hgood
    have he : recomputeHash sha e = e.event_hash := hgood e (List.mem_cons_self e rest)
    have hrest : ∀ x ∈ rest, recomputeHash sha x = x.event_hash :=
      fun x hx => hgood x (List.mem_cons_of_mem e hx)
    simp only [verifyWalk, he, ne_eq, not_true_eq_false, if_false, if_neg]
    rw [ih (c + 1) hrest]
    simp only [List.length_cons]
    congr 1
    omega

lemma verifyWalk_append_good (sha : String → String) :
    ∀ (pre l : List AuditEvent) (c : Nat),
      (∀ e ∈ pre, recomputeHash sha e = e.event_hash) →
      verifyWalk sha (pre ++ l) c = verifyWalk sha l (c + pre.length) := by
  intro pre
  induction pre with
  | nil => intro l c _; simp
  | cons e rest ih =>
    intro l c hgood
    have he : recomputeHash sha e = e.event_hash := hgood e (List.mem_cons_self e rest)
    have hrest : ∀ x ∈ rest, recomputeHash sha x = x.event_hash :=
      fun x hx => hgood x (List.mem_cons_of_mem e hx)
    simp only [List.cons_append, verifyWalk, he, ne_eq, not_true_eq_false, if_false, if_neg,
      List.append_eq]
    rw [ih l (c + 1) hrest, List.length_cons]
    congr 1
    omega

/-! ### Nodup helper -/

lemma nodup_concat {α : Type} (l : List α) (a : α) (ha : a ∉ l)
    (hl : l.Nodup) : (l ++ [a]).Nodup := by
  rw [List.nodup_append]
  refine ⟨hl, List.nodup_singleton a, ?_⟩
  intro x hx hxa
  simp only [List.mem_singleton] at hxa
  exact ha (hxa ▸ hx)

/-! ### The append invariant -/

lemma hash_chain_key (sha : String → String) (st : List AuditEvent)
    (r : AppendReq) : (audit_spine_hash_chain sha st r).key = r.key := rfl

lemma hash_chain_prev (sha : String → String) (st : List AuditEvent)
    (r : AppendReq) :
    (audit_spine_hash_chain sha st r).previous_event_hash = tipPrev st := rfl

lemma insertAuditEvent_some {sha : String → String} {st : List AuditEvent}
    {r : AppendReq} {st1 : List AuditEvent}
    (h : insertAuditEvent sha st r = some st1) :
    st1 = st ++ [audit_spine_hash_chain sha st r] ∧
      (st.any (fun x =>
        x.previous_event_hash ==
          (audit_spine_hash_chain sha st r).previous_event_hash)) = false := by
  unfold insertAuditEvent at h
  by_cases h1 : (st.any (fun x => x.id == (audit_spine_hash_chain sha st r).id)) = true
  · simp [h1] at h
  · by_cases h2 : (st.any (fun x =>
        x.previous_event_hash ==
          (audit_spine_hash_chain sha st r).previous_event_hash)) = true
    · simp [h1, h2] at h
    · rw [Bool.not_eq_true] at h1 h2
      simp only [h1, h2, Bool.false_eq_true, if_false, Option.some.injEq] at h
      exact ⟨h.symm, h2⟩

lemma appendAll_inv (sha : String → String) :
    ∀ (reqs : List AppendReq) (st st' : List AuditEvent),
      reqs.Pairwise (fun a b => lexLt a.key b.key) →
      (∀ e ∈ st, ∀ r ∈ reqs, lexLt e.key r.key) →
      st.Pairwise keyLt →
      chainLinkedB "GENESIS" st = true →
      (st.map (fun e => e.previous_event_hash)).Nodup →
      appendAll sha st reqs = some st' →
      st'.Pairwise keyLt ∧ chainLinkedB "GENESIS" st' = true ∧
        (st'.map (fun e => e.previous_event_hash)).Nodup := by
  intro reqs
  induction reqs with
  | nil =>
    intro st st' _ _ hsort hlink hnd hrun
    simp only [appendAll, Option.some.injEq] at hrun
    exact hrun ▸ ⟨hsort, hlink, hnd⟩
  | cons r rs ih =>
    intro st st' hmono hbound hsort hlink hnd hrun
    rcases List.pairwise_cons.mp hmono with ⟨hmhead, hmtail⟩
    unfold appendAll at hrun
    cases hins : insertAuditEvent sha st r with
    | none => rw [hins] at hrun; simp at hrun
    | some st1 =>
      rw [hins] at hrun
      rcases insertAuditEvent_some hins with ⟨hst1, hfresh⟩
      subst hst1
      set e := audit_spine_hash_chain sha st r with he
      have hekey : e.key = r.key := rfl
      have hallst : ∀ x ∈ st, keyLt x e := by
        intro x hx
        show lexLt x.key e.key
        rw [hekey]
        exact hbound x hx r (List.mem_cons_self r rs)
      have hsort1 : (st ++ [e]).Pairwise keyLt := by
        rw [List.pairwise_append]
        refine ⟨hsort, List.pairwise_singleton _ _, ?_⟩
        intro x hx y hy
        rw [List.mem_singleton] at hy
        exact hy ▸ hallst x hx
      have hlink1 : chainLinkedB "GENESIS" (st ++ [e]) = true := by
        refine chainLinkedB_concat st "GENESIS" e hlink ?_
        rw [hash_chain_prev, tipPrev_eq_lastHash st hsort]
      have hnd1 : ((st ++ [e]).map (fun x => x.previous_event_hash)).Nodup := by
        rw [List.map_append, List.map_singleton]
        refine nodup_concat _ _ ?_ hnd
        intro hmem
        rw [List.mem_map] at hmem
        rcases hmem with ⟨x, hx, hxe⟩
        have := List.any_eq_false.mp hfresh x hx
        simp only [beq_iff_eq] at this
        exact this hxe
      have hbound1 : ∀ x ∈ st ++ [e], ∀ r2 ∈ rs, lexLt x.key r2.key := by
        intro x hx r2 hr2
        rw [List.mem_append, List.mem_singleton] at hx
        rcases hx with hx | hx
        · exact hbound x hx r2 (List.mem_cons_of_mem r hr2)
        · rw [hx, hekey]
          exact hmhead r2 hr2
      exact ih (st ++ [e]) st' hmtail hbound1 hsort1 hlink1 hnd1 hrun

/-- The unique index alone keeps `previous_event_hash` duplicate-free
across any successful append schedule, with no ordering assumption. -/
lemma appendAll_nodup_prevs (sha : String → String) :
    ∀ (reqs : List AppendReq) (st st' : List AuditEvent),
      (st.map (fun e => e.previous_event_hash)).Nodup →
      appendAll sha st reqs = some st' →
      (st'.map (fun e => e.previous_event_hash)).Nodup := by
  intro reqs
  induction reqs with
  | nil =>
    intro st st' hnd hrun
    simp only [appendAll, Option.some.injEq] at hrun
    exact hrun ▸ hnd
  | cons r rs ih =>
    intro st st' hnd hrun
    unfold appendAll at hrun
    cases hins : insertAuditEvent sha st r with
    | none => rw [hins] at hrun; simp at hrun
    | some st1 =>
      rw [hins] at hrun
      rcases insertAuditEvent_some hins with ⟨hst1, hfresh⟩
      subst hst1
      refine ih _ st' ?_ hrun
      rw [List.map_append, List.map_singleton]
      refine nodup_concat _ _ ?_ hnd
      intro hmem
      rw [List.mem_map] at hmem
      rcases hmem with ⟨x, hx, hxe⟩
      have := List.any_eq_false.mp hfresh x hx
      simp only [beq_iff_eq] at this
      exact this hxe

/-! ### Claims C1-C5 -/

/-- C1.  Every inserted event stores
`event_hash = SHA256(previous_event_hash | actor_id | action_type |
payload_json_text | policy_version | created_at_text)` joined by the
single-character pipe, and the verify function recomputes the hash with
exactly the same formula (so its recomputation matches the stored
hash). -/
theorem event_hash_formula (sha : String → String) (st : List AuditEvent)
    (r : AppendReq) (st1 : List AuditEvent)
    (h : insertAuditEvent sha st r = some st1) :
    st1 = st ++ [audit_spine_hash_chain sha st r] ∧
    (audit_spine_hash_chain sha st r).event_hash =
      sha ((audit_spine_hash_chain sha st r).previous_event_hash ++ "|" ++
        r.actor_id ++ "|" ++ r.action_type ++ "|" ++ r.intent_payload ++ "|" ++
        r.policy_version ++ "|" ++ createdAtText r.created_at) ∧
    recomputeHash sha (audit_spine_hash_chain sha st r) =
      sha ((audit_spine_hash_chain sha st r).previous_event_hash ++ "|" ++
        (audit_spine_hash_chain sha st r).actor_id ++ "|" ++
        (audit_spine_hash_chain sha st r).action_type ++ "|" ++
        (audit_spine_hash_chain sha st r).intent_payload ++ "|" ++
        (audit_spine_hash_chain sha st r).policy_version ++ "|" ++
        createdAtText (audit_spine_hash_chain sha st r).created_at) ∧
    recomputeHash sha (audit_spine_hash_chain sha st r) =
      (audit_spine_hash_chain sha st r).event_hash := by
  refine ⟨(insertAuditEvent_some h).1, rfl, rfl, rfl⟩

theorem event_hash_formula_witness :
    c1ledger = [] ++ [audit_spine_hash_chain toySha [] c1req] :=
  (event_hash_formula toySha [] c1req c1ledger rfl).1

/-- C2 (amended).  After any sequence of successful appends no two rows
share a `previous_event_hash` — the unique index rejects the duplicate,
with no ordering assumption; and provided the appends' `(created_at,
id)` keys grow strictly along the append order (in particular whenever
the wall clock strictly advances between appends), the ledger sorted
ascending by `(created_at, id)` starts from the sentinel `GENESIS` and
links every event to its predecessor's `event_hash`.  When the clock
ties and the random ids arrive descending, the appends still succeed but
the sorted-order linkage fails. -/
theorem append_chain_linkage (sha : String → String) (reqs : List AppendReq)
    (st : List AuditEvent)
    (hrun : runAppends sha reqs = some st) :
    (st.map (fun e => e.previous_event_hash)).Nodup ∧
    (reqs.Pairwise (fun a b => lexLt a.key b.key) →
      chainLinkedB "GENESIS" (sortByKey st) = true) := by
  constructor
  · exact appendAll_nodup_prevs sha reqs [] st (by simp) hrun
  · intro hmono
    have hinv := appendAll_inv sha reqs [] st hmono
      (by intro e he; simp at he) List.Pairwise.nil rfl (by simp) hrun
    rcases hinv with ⟨hsorted, hlink, _⟩
    rw [sortByKey_of_sorted hsorted]
    exact hlink

theorem append_chain_linkage_witness :
    (c2ledger.map (fun e => e.previous_event_hash)).Nodup ∧
    chainLinkedB "GENESIS" (sortByKey c2ledger) = true :=
  ⟨(append_chain_linkage toySha c2reqs c2ledger rfl).1,
   (append_chain_linkage toySha c2reqs c2ledger rfl).2 (by decide)⟩

/-- C2 counterexample: two successful appends sharing one `created_at`
whose random ids arrive in descending order — reachable since the spec
guarantees only non-decreasing `now()` and `gen_random_uuid()` is
random.  Both inserts succeed, yet in ascending `(created_at, id)` order
the first row carries the first append's hash instead of `GENESIS`, so
the claimed sorted-order linkage is false. -/
theorem append_tie_linkage_cex :
    (runAppends toySha c2tiereqs).isSome = true ∧
    chainLinkedB "GENESIS" (sortByKey c2tieledger) = false := by
  decide

/-- C3 (amended).  `audit_spine_verify_chain` reports `chain_valid =
true` exactly when every stored `event_hash` recomputes from the row's
own stored fields — including its stored `previous_event_hash`; the
predecessor-linkage property is not itself checked by the scan. -/
theorem verify_valid_iff_hashes (sha : String → String) (st : List AuditEvent) :
    (audit_spine_verify_chain sha st).chain_valid = true ↔
      ∀ e ∈ st, recomputeHash sha e = e.event_hash := by
  unfold audit_spine_verify_chain
  rw [verifyWalk_valid_iff]
  constructor
  · intro h e he
    exact h e (mem_sortByKey.mpr he)
  · intro h e he
    exact h e (mem_sortByKey.mp he)

/-- C3 counterexample: a ledger state whose every row is internally
hash-consistent but whose second row does not link to the first; the
scan still reports `chain_valid = true`, refuting the claimed
equivalence with the conjunction of linkage and hash recomputation. -/
theorem verify_ignores_linkage_cex :
    (audit_spine_verify_chain toySha c3state).chain_valid = true ∧
    chainLinkedB "GENESIS" (sortByKey c3state) = false := by
  decide

theorem verify_valid_iff_hashes_witness :
    (audit_spine_verify_chain toySha c2ledger).chain_valid = true :=
  (verify_valid_iff_hashes toySha c2ledger).mpr (by decide)

/-- C4 (amended).  The scan walks ascending `(created_at, id)`; with no
mismatch it returns the event count, `chain_valid = true` and a null
`break_at`; at the first mismatching event it stops, returning
`chain_valid = false`, `break_at` that event's id, and `total_events`
the 1-based position of that event (not the ledger's size). -/
theorem verify_break_report (sha : String → String)
    (st pre post : List AuditEvent) (e : AuditEvent) :
    ((∀ x ∈ st, recomputeHash sha x = x.event_hash) →
      audit_spine_verify_chain sha st = ⟨st.length, true, none⟩) ∧
    (sortByKey st = pre ++ e :: post →
      (∀ x ∈ pre, recomputeHash sha x = x.event_hash) →
      recomputeHash sha e ≠ e.event_hash →
      audit_spine_verify_chain sha st = ⟨pre.length + 1, false, some e.id⟩) := by
  constructor
  · intro hgood
    unfold audit_spine_verify_chain
    rw [verifyWalk_all_good sha (sortByKey st) 0
      (fun x hx => hgood x (mem_sortByKey.mp hx))]
    rw [length_sortByKey]
    congr 1
    omega
  · intro hdecomp hpre hbad
    unfold audit_spine_verify_chain
    rw [hdecomp, verifyWalk_append_good sha pre (e :: post) 0 hpre]
    simp only [verifyWalk, hbad, ne_eq, not_false_eq_true, if_true, if_pos]
    congr 1
    omega

theorem verify_break_report_witness :
    audit_spine_verify_chain toySha c2ledger = ⟨c2ledger.length, true, none⟩ ∧
    audit_spine_verify_chain toySha c4state = ⟨1, false, some 1⟩ :=
  ⟨(verify_break_report toySha c2ledger [] [] c4bad).1 (by decide),
   (verify_break_report toySha c4state [] [c4good] c4bad).2
     (by decide) (by decide) (by decide)⟩

/-- C4 counterexample: at a break the function returns in `total_events`
the breaking position, not the ledger's event count — here a two-event
ledger broken at the first event reports `total_events = 1`. -/
theorem verify_break_total_cex :
    audit_spine_verify_chain toySha c4state = ⟨1, false, some 1⟩ ∧
    c4state.length = 2 := by
  decide

/-- C5.  Any UPDATE and any DELETE that touches a row of `audit_events`
is rejected with the constitutional-violation error and leaves the store
unchanged, while INSERT (with a fresh id and an unused chain tip)
succeeds. -/
theorem audit_events_immutable (st : List AuditEvent)
    (hits : AuditEvent → Bool) (f : AuditEvent → AuditEvent)
    (sha : String → String) (r : AppendReq)
    (htouch : st.any hits = true)
    (hid : st.any (fun x => x.id == r.id) = false)
    (hprev : st.any (fun x => x.previous_event_hash == tipPrev st) = false) :
    updateAuditEvents st hits f = .error (audit_spine_deny_mutation "UPDATE") ∧
    deleteAuditEvents st hits = .error (audit_spine_deny_mutation "DELETE") ∧
    insertAuditEvent sha st r = some (st ++ [audit_spine_hash_chain sha st r]) := by
  have e_id : (audit_spine_hash_chain sha st r).id = r.id := rfl
  have e_prev : (audit_spine_hash_chain sha st r).previous_event_hash = tipPrev st := rfl
  refine ⟨?_, ?_, ?_⟩
  · simp [updateAuditEvents, htouch]
  · simp [deleteAuditEvents, htouch]
  · simp only [insertAuditEvent, e_id, e_prev, hid, hprev, Bool.false_eq_true,
      if_false]

theorem audit_events_immutable_witness :
    updateAuditEvents c5state (fun _ => true) id =
      .error (audit_spine_deny_mutation "UPDATE") ∧
    deleteAuditEvents c5state (fun _ => true) =
      .error (audit_spine_deny_mutation "DELETE") ∧
    insertAuditEvent toySha c5state c5req =
      some (c5state ++ [audit_spine_hash_chain toySha c5state c5req]) :=
  audit_events_immutable c5state (fun _ => true) id toySha c5req
    (by decide) (by decide) (by decide)

/-! ### Claims C6-C9 -/

lemma elapsed_gt_iff (nowMs escMs cms : Int) :
    ((cms : ℚ) / 1000 < elapsedSecondsOf nowMs escMs) ↔ cms < nowMs - escMs := by
  unfold elapsedSecondsOf
  rw [div_lt_div_iff_of_pos_right (by norm_num : (0:ℚ) < 1000)]
  exact_mod_cast Iff.rfl

lemma elapsed_gt_300 (nowMs escMs : Int) :
    ((300 : ℚ) < elapsedSecondsOf nowMs escMs) ↔ 300000 < nowMs - escMs := by
  have h := elapsed_gt_iff nowMs escMs 300000
  norm_num at h
  exact h

lemma elapsed_gt_3600 (nowMs escMs : Int) :
    ((3600 : ℚ) < elapsedSecondsOf nowMs escMs) ↔ 3600000 < nowMs - escMs := by
  have h := elapsed_gt_iff nowMs escMs 3600000
  norm_num at h
  exact h

/-- C6 (amended).  For an unresolved escalation the thresholds are
strict: at elapsed exactly 300 s the reported state is still
PENDING_REVIEW, at exactly 3600 s it is HUMAN_REQUIRED; HUMAN_REQUIRED
holds for 300 s < elapsed ≤ 3600 s and AUTO_DENIED_TIMEOUT only for
elapsed > 3600 s (elapsed measured from the ESCALATED event's
`created_at` to now). -/
theorem escalation_thresholds_strict (nowMs escMs : Int) :
    (nowMs - escMs = 300000 →
      escalationState false (elapsedSecondsOf nowMs escMs) = "PENDING_REVIEW") ∧
    (nowMs - escMs = 3600000 →
      escalationState false (elapsedSecondsOf nowMs escMs) = "HUMAN_REQUIRED") ∧
    (300000 < nowMs - escMs → nowMs - escMs ≤ 3600000 →
      escalationState false (elapsedSecondsOf nowMs escMs) = "HUMAN_REQUIRED") ∧
    (3600000 < nowMs - escMs →
      escalationState false (elapsedSecondsOf nowMs escMs) = "AUTO_DENIED_TIMEOUT") := by
  refine ⟨?_, ?_, ?_, ?_⟩
  · intro h
    have h36 : ¬ (3600 : ℚ) < elapsedSecondsOf nowMs escMs := by
      rw [elapsed_gt_3600]; omega
    have h3 : ¬ (300 : ℚ) < elapsedSecondsOf nowMs escMs := by
      rw [elapsed_gt_300]; omega
    simp [escalationState, gt_iff_lt, h36, h3]
  · intro h
    have h36 : ¬ (3600 : ℚ) < elapsedSecondsOf nowMs escMs := by
      rw [elapsed_gt_3600]; omega
    have h3 : (300 : ℚ) < elapsedSecondsOf nowMs escMs := by
      rw [elapsed_gt_300]; omega
    simp [escalationState, gt_iff_lt, h36, h3]
  · intro hlo hhi
    have h36 : ¬ (3600 : ℚ) < elapsedSecondsOf nowMs escMs := by
      rw [elapsed_gt_3600]; omega
    have h3 : (300 : ℚ) < elapsedSecondsOf nowMs escMs := by
      rw [elapsed_gt_300]; omega
    simp [escalationState, gt_iff_lt, h36, h3]
  · intro h
    have h36 : (3600 : ℚ) < elapsedSecondsOf nowMs escMs := by
      rw [elapsed_gt_3600]; omega
    simp [escalationState, gt_iff_lt, h36]

theorem escalation_thresholds_strict_witness :
    escalationState false (elapsedSecondsOf 300000 0) = "PENDING_REVIEW" ∧
    escalationState false (elapsedSecondsOf 3600000 0) = "HUMAN_REQUIRED" ∧
    escalationState false (elapsedSecondsOf 3600001 0) = "AUTO_DENIED_TIMEOUT" :=
  ⟨(escalation_thresholds_strict 300000 0).1 (by decide),
   (escalation_thresholds_strict 3600000 0).2.1 (by decide),
   (escalation_thresholds_strict 3600001 0).2.2.2 (by decide)⟩

/-- C6 counterexample: at elapsed exactly 300 s the state is
PENDING_REVIEW, not HUMAN_REQUIRED, and at exactly 3600 s it is
HUMAN_REQUIRED, not AUTO_DENIED_TIMEOUT — the claimed transitions do not
fire at the boundary. -/
theorem escalation_boundary_cex :
    escalationState false (elapsedSecondsOf 300000 0) = "PENDING_REVIEW" ∧
    escalationState false (elapsedSecondsOf 300000 0) ≠ "HUMAN_REQUIRED" ∧
    escalationState false (elapsedSecondsOf 3600000 0) = "HUMAN_REQUIRED" ∧
    escalationState false (elapsedSecondsOf 3600000 0) ≠ "AUTO_DENIED_TIMEOUT" := by
  have h1 : elapsedSecondsOf 300000 0 = 300 := by
    unfold elapsedSecondsOf
    norm_num
  have h2 : elapsedSecondsOf 3600000 0 = 3600 := by
    unfold elapsedSecondsOf
    norm_num
  rw [h1, h2]
  norm_num [escalationState]
  decide

/-- C7 (amended).  When `failOpen` is off (the default: no
`GOVERNANCE_FAIL_OPEN` in the environment), any gateway failure — thrown
fetch error or unexpected status — makes the hook block with a reason;
with `failOpen` enabled the hook instead allows the action. -/
theorem hook_blocks_on_gateway_error (cfg : GovernanceConfig)
    (msg rawText : String) (status : Nat) (data : ProposalResponse)
    (hfo : cfg.failOpen = false)
    (h200 : status ≠ 200) (h403 : status ≠ 403) (h202 : status ≠ 202) :
    (toolCallHookResult cfg (.netError msg)).block = some true ∧
    (toolCallHookResult cfg (.netError msg)).blockReason.isSome = true ∧
    (toolCallHookResult cfg (.ok status data rawText)).block = some true ∧
    (toolCallHookResult cfg (.ok status data rawText)).blockReason.isSome = true ∧
    (∀ env : String → Option String, env "GOVERNANCE_FAIL_OPEN" = none →
      (loadConfig env).failOpen = false) := by
  have hstatus : (status == 200 || status == 403 || status == 202) = false := by
    simp [h200, h403, h202]
  have hcall : callGateway (.ok status data rawText) =
      .error ("Gateway returned " ++ toString status ++ ": " ++ rawText.take 100) := by
    simp [callGateway, hstatus]
  refine ⟨?_, ?_, ?_, ?_, ?_⟩
  · simp [toolCallHookResult, callGateway, hfo]
  · simp [toolCallHookResult, callGateway, hfo]
  · simp [toolCallHookResult, hcall, hfo]
  · simp [toolCallHookResult, hcall, hfo]
  · intro env henv
    simp only [loadConfig, henv, Option.getD_none]
    decide

theorem hook_blocks_on_gateway_error_witness :
    (toolCallHookResult cfgClosed (.netError "fetch failed")).block = some true ∧
    (toolCallHookResult cfgClosed (.netError "fetch failed")).blockReason.isSome = true ∧
    (toolCallHookResult cfgClosed
      (.ok 500 dummyResponse "Internal Server Error")).block = some true ∧
    (toolCallHookResult cfgClosed
      (.ok 500 dummyResponse "Internal Server Error")).blockReason.isSome = true ∧
    (∀ env : String → Option String, env "GOVERNANCE_FAIL_OPEN" = none →
      (loadConfig env).failOpen = false) :=
  hook_blocks_on_gateway_error cfgClosed "fetch failed" "Internal Server Error"
    500 dummyResponse rfl (by decide) (by decide) (by decide)

/-- C7 counterexample: with `GOVERNANCE_FAIL_OPEN=true` in the
environment the hook returns the empty (allowing) result on a gateway
error, so an unreachable gateway does not block the tool call. -/
theorem hook_fail_open_cex :
    (loadConfig envFailOpen).failOpen = true ∧
    toolCallHookResult (loadConfig envFailOpen)
      (.netError "AbortError: This operation was aborted") =
      ⟨none, none⟩ := by
  decide

/-- C8 (amended).  With `HUMAN_API_KEY` unset or empty, every request to
the approval proxy endpoint is rejected before reaching the gateway with
HTTP status 500 (not 401). -/
theorem approve_missing_key_500 (env : String → Option String)
    (gatewayStatus : Nat) (h : (env "HUMAN_API_KEY").getD "" = "") :
    approveRoutePOST env gatewayStatus = 500 := by
  simp [approveRoutePOST, h]

theorem approve_missing_key_500_witness :
    approveRoutePOST envNoKey 200 = 500 :=
  approve_missing_key_500 envNoKey 200 rfl

/-- C8 counterexample: with the key unset (and likewise empty) the route
answers 500, not the claimed 401. -/
theorem approve_missing_key_cex :
    approveRoutePOST envNoKey 200 = 500 ∧
    approveRoutePOST envEmptyKey 200 = 500 ∧
    (500 : Nat) ≠ 401 := by
  decide

lemma decisionDispatch_block {r : ProposalResponse}
    (h : r.decision ≠ "APPROVED") :
    (decisionDispatch r).block = some true ∧
    (decisionDispatch r).blockReason.isSome = true := by
  have hb : (r.decision == "APPROVED") = false := by simp [h]
  by_cases h2 : r.decision = "DENIED"
  · simp [decisionDispatch, hb, h2]
  · have hb2 : (r.decision == "DENIED") = false := by simp [h2]
    by_cases h3 : r.decision = "ESCALATED"
    · simp [decisionDispatch, hb, hb2, h3]
    · have hb3 : (r.decision == "ESCALATED") = false := by simp [h3]
      simp [decisionDispatch, hb, hb2, hb3]

/-- C9.  On a decision-carrying gateway response the hook dispatches on
the decision field: it returns the empty (allowing) result exactly when
the decision is APPROVED, and for DENIED, ESCALATED and any unrecognized
decision it blocks with a reason. -/
theorem hook_allows_iff_approved (cfg : GovernanceConfig)
    (r : ProposalResponse) (rawText : String) :
    (toolCallHookResult cfg (.ok 200 r rawText) = decisionDispatch r) ∧
    (decisionDispatch r = ⟨none, none⟩ ↔ r.decision = "APPROVED") ∧
    (r.decision ≠ "APPROVED" →
      (decisionDispatch r).block = some true ∧
      (decisionDispatch r).blockReason.isSome = true) := by
  refine ⟨by simp [toolCallHookResult, callGateway], ?_, fun h => decisionDispatch_block h⟩
  by_cases h : r.decision = "APPROVED"
  · constructor
    · intro _; exact h
    · intro _; simp [decisionDispatch, h]
  · constructor
    · intro heq
      have hblock := (decisionDispatch_block h).1
      rw [heq] at hblock
      exact absurd hblock (by simp)
    · intro ha; exact absurd ha h

theorem hook_allows_iff_approved_witness :
    (decisionDispatch deniedResponse).block = some true ∧
    (decisionDispatch deniedResponse).blockReason.isSome = true :=
  (hook_allows_iff_approved cfgClosed deniedResponse "").2.2 (by decide)

/-! ### Claim C10 -/

lemma earliestByCreated_eq_none :
    ∀ {l : List AuditEvent}, earliestByCreated l = none → l = [] := by
  intro l h
  cases l with
  | nil => rfl
  | cons e rest =>
    unfold earliestByCreated at h
    cases hx : earliestByCreated rest with
    | none => rw [hx] at h; simp at h
    | some b =>
      rw [hx] at h
      by_cases hb : b.created_at < e.created_at
      · simp [hb] at h
      · simp [hb] at h

lemma earliestByCreated_mem : ∀ {l : List AuditEvent} {p : AuditEvent},
    earliestByCreated l = some p → p ∈ l := by
  intro l
  induction l with
  | nil => intro p h; simp [earliestByCreated] at h
  | cons e rest ih =>
    intro p h
    unfold earliestByCreated at h
    cases hx : earliestByCreated rest with
    | none =>
      rw [hx] at h
      simp only [Option.some.injEq] at h
      simp [h]
    | some b =>
      rw [hx] at h
      by_cases hb : b.created_at < e.created_at
      · simp only [hb, if_true, if_pos, Option.some.injEq] at h
        exact List.mem_cons_of_mem _ (h ▸ ih hx)
      · simp only [hb, if_false, if_neg, Option.some.injEq] at h
        simp [h]

lemma earliestByCreated_min : ∀ {l : List AuditEvent} {p : AuditEvent},
    earliestByCreated l = some p →
      ∀ q ∈ l, p.created_at ≤ q.created_at := by
  intro l
  induction l with
  | nil => intro p h; simp [earliestByCreated] at h
  | cons e rest ih =>
    intro p h q hq
    unfold earliestByCreated at h
    rw [List.mem_cons] at hq
    cases hx : earliestByCreated rest with
    | none =>
      rw [hx] at h
      simp only [Option.some.injEq] at h
      have hrest : rest = [] := earliestByCreated_eq_none hx
      rcases hq with hq | hq
      · rw [← h, hq]
      · rw [hrest] at hq
        simp at hq
    | some b =>
      rw [hx] at h
      by_cases hb : b.created_at < e.created_at
      · simp only [hb, if_true, if_pos, Option.some.injEq] at h
        rcases hq with hq | hq
        · rw [← h, hq]
          exact Nat.le_of_lt hb
        · exact h ▸ ih hx q hq
      · simp only [hb, if_false, if_neg, Option.some.injEq] at h
        rcases hq with hq | hq
        · rw [← h, hq]
        · have hbq : b.created_at ≤ q.created_at := ih hx q hq
          have heb : e.created_at ≤ b.created_at := Nat.le_of_not_lt hb
          rw [← h]
          omega

lemma distinctTimes_pairwise : ∀ {l : List AuditEvent},
    distinctTimes l = true →
      l.Pairwise (fun a b => a.created_at ≠ b.created_at) := by
  intro l
  induction l with
  | nil => intro _; exact List.Pairwise.nil
  | cons e rest ih =>
    intro h
    simp only [distinctTimes, Bool.and_eq_true, List.all_eq_true] at h
    refine List.Pairwise.cons ?_ (ih h.2)
    intro x hx
    have hne := h.1 x hx
    simpa using hne

lemma policyEvalMatch_iff {i pe : AuditEvent} :
    policyEvalMatch i pe = true ↔
      isPolicyEval pe = true ∧ pe.actor_id = i.actor_id ∧
        i.created_at ≤ pe.created_at ∧ pe.created_at ≤ i.created_at + 10 := by
  simp [policyEvalMatch, Bool.and_eq_true, decide_eq_true_eq, and_assoc]

/-- C10 (amended).  `getIntentsWithPolicyEvals` pairs an intent with the
earliest POLICY_EVAL event of the same actor whose `created_at` lies
within ten seconds after the intent's — no stored intent-id reference
takes part.  Consequently two proposals by one actor in a ten-second
window are paired with the same (earliest) evaluation whenever that
evaluation falls inside both windows (in particular when both intents
precede it); when an evaluation lands between the two intents, each
intent instead pairs with its own earliest subsequent evaluation. -/
theorem pairing_earliest_in_window (evs : List AuditEvent)
    (i1 i2 p : AuditEvent)
    (h1 : pairedPolicyEval evs i1 = some p)
    (hactor : i2.actor_id = i1.actor_id)
    (ht12 : i1.created_at ≤ i2.created_at)
    (hwlo : i2.created_at ≤ p.created_at)
    (hwhi : p.created_at ≤ i2.created_at + 10)
    (hdistinct : distinctTimes (evs.filter (policyEvalMatch i2)) = true) :
    (p ∈ evs ∧ policyEvalMatch i1 p = true ∧
      ∀ q ∈ evs, policyEvalMatch i1 q = true →
        p.created_at ≤ q.created_at) ∧
    pairedPolicyEval evs i2 = some p := by
  unfold pairedPolicyEval at h1
  have hp_filter1 : p ∈ evs.filter (policyEvalMatch i1) := earliestByCreated_mem h1
  rw [List.mem_filter] at hp_filter1
  have hmin1 : ∀ q ∈ evs, policyEvalMatch i1 q = true → p.created_at ≤ q.created_at := by
    intro q hq hmq
    exact earliestByCreated_min h1 q (List.mem_filter.mpr ⟨hq, hmq⟩)
  rcases policyEvalMatch_iff.mp hp_filter1.2 with ⟨hpe, hpa, _, hpw⟩
  have hmatch2 : policyEvalMatch i2 p = true := by
    rw [policyEvalMatch_iff]
    exact ⟨hpe, by rw [hpa, hactor], hwlo, hwhi⟩
  have hp_mem2 : p ∈ evs.filter (policyEvalMatch i2) :=
    List.mem_filter.mpr ⟨hp_filter1.1, hmatch2⟩
  have hmin2 : ∀ q ∈ evs.filter (policyEvalMatch i2),
      p.created_at ≤ q.created_at := by
    intro q hq
    rw [List.mem_filter] at hq
    rcases policyEvalMatch_iff.mp hq.2 with ⟨hqe, hqa, hqlo, _⟩
    by_cases hpq : p.created_at ≤ q.created_at
    · exact hpq
    · have hlt : q.created_at < p.created_at := Nat.lt_of_not_le hpq
      have hmatch1q : policyEvalMatch i1 q = true := by
        rw [policyEvalMatch_iff]
        refine ⟨hqe, by rw [hqa, hactor], by omega, by omega⟩
      have := hmin1 q hq.1 hmatch1q
      omega
  refine ⟨⟨hp_filter1.1, hp_filter1.2, hmin1⟩, ?_⟩
  unfold pairedPolicyEval
  cases h2 : earliestByCreated (evs.filter (policyEvalMatch i2)) with
  | none =>
    rw [earliestByCreated_eq_none h2] at hp_mem2
    simp at hp_mem2
  | some m =>
    have hm_mem := earliestByCreated_mem h2
    have hm_min := earliestByCreated_min h2
    by_cases hmp : m = p
    · rw [hmp]
    · have hsym : Symmetric (fun a b : AuditEvent => a.created_at ≠ b.created_at) :=
        fun _ _ hab => Ne.symm hab
      have hne := (distinctTimes_pairwise hdistinct).forall hsym hm_mem hp_mem2 hmp
      have heq : m.created_at = p.created_at :=
        Nat.le_antisymm (hm_min p hp_mem2) (hmin2 m hm_mem)
      exact absurd heq hne

/-- C10 counterexample: two proposals by the same actor two seconds
apart, each followed by its own policy evaluation — all four events
inside one ten-second window — are paired with two different
evaluations, refuting the claim that both always receive the same
(earliest) one. -/
theorem pairing_window_cex :
    c10i1.actor_id = c10i2.actor_id ∧
    c10i2.created_at ≤ c10i1.created_at + 10 ∧
    pairedPolicyEval c10evs c10i1 = some c10p1 ∧
    pairedPolicyEval c10evs c10i2 = some c10p2 ∧
    c10p1 ≠ c10p2 := by
  decide

theorem pairing_earliest_in_window_witness :
    pairedPolicyEval c10wevs c10wi1 = some c10wp ∧
    pairedPolicyEval c10wevs c10wi2 = some c10wp :=
  ⟨by decide,
   (pairing_earliest_in_window c10wevs c10wi1 c10wi2 c10wp
     (by decide) (by decide) (by decide) (by decide) (by decide) (by decide)).2⟩

end Gavel
